import Mathlib

/-!
Verification of the semantic-analysis and IR-lowering core of the elz compiler
(src/src/semantic/mod.rs and src/src/codegen/ir.rs), as a shallow embedding.

Shared `Rc<RefCell<ID>>` cells are modelled as an arena of natural-number
slots: `GenState.fresh` is the allocator, and the terminal value-numbering
pass produces an association list of writes (`runNumber`); a cell's final
value is read with `cellValue`, defaulting to the placeholder `0`
(`ID::new` initialises every cell to `0`).  Rust panics
(`unwrap`/`expect`/`unreachable!`/out-of-bounds indexing) are modelled as
`Option.none` on the codegen side and as `Failure.fatal` on the checker side.
-/

namespace Elz

/-! ## AST (interface consumed from the excluded parsing stage) -/

/-- Syntactic type: a bare name or a name applied to type arguments. -/
inductive ParsedType where
  | mk (name : String) (args : List ParsedType)
deriving Repr

def ParsedType.name : ParsedType → String
  | .mk n _ => n

/-- The only binary operator handled by lowering (`Operator::Plus`). -/
inductive Operator where
  | plus
deriving Repr

/-- AST expressions (`ast::ExprVariant`); `f64` literals carry an opaque
integer token since no floating arithmetic is ever performed on them. -/
inductive AExpr where
  | int (i : Int)
  | f64 (tok : Int)
  | bool (b : Bool)
  | string (s : String)
  | identifier (name : String)
  | binary (lhs rhs : AExpr) (op : Operator)
  | funcCall (f : AExpr) (args : List AExpr)
  | classConstruction (name : String) (inits : List (String × AExpr))
  | memberAccess (base : AExpr) (field : String)
  | list (elems : List AExpr)
deriving Repr

mutual
/-- AST statements (`ast::StatementVariant`); source locations are dropped. -/
inductive Statement where
  | ret (e : Option AExpr)
  | expression (e : AExpr)
  | varDecl (name : String) (typ : ParsedType) (init : AExpr)
  | ifBlock (clauses : List (AExpr × Block)) (elseBlock : Block)
deriving Repr

/-- AST block (`ast::Block`), location dropped. -/
inductive Block where
  | mk (statements : List Statement)
deriving Repr
end

def Block.statements : Block → List Statement
  | .mk s => s

/-- A function body is either a single expression or a block. -/
inductive ABody where
  | exprBody (e : AExpr)
  | blockBody (b : Block)
deriving Repr

/-- AST function: name, parameters, syntactic return type, optional body. -/
structure AFunction where
  name : String
  parameters : List (String × ParsedType)
  retTyp : ParsedType
  body : Option ABody
deriving Repr

/-- Class member (`ast::ClassMember`). -/
inductive ClassMember where
  | field (name : String) (typ : ParsedType)
  | method (f : AFunction)
  | staticMethod (f : AFunction)
deriving Repr

/-- Top-level declaration (`ast::TopAstVariant`); exactly the four variants
matched exhaustively by the checker's third pass. -/
inductive TopAst where
  | variableDecl (name : String) (typ : ParsedType) (init : AExpr)
  | functionDecl (f : AFunction)
  | classDecl (name : String) (members : List ClassMember)
  | traitDecl (name : String)
deriving Repr

/-! ## IR type representation (`codegen/ir.rs`, `enum Type`) -/

/-- The flattened IR type (`ir::Type`); `Field` is inlined as a name/type pair. -/
inductive IRType where
  | void
  | int (width : Nat)
  | float (width : Nat)
  | pointer (element : IRType)
  | array (len : Nat) (element : IRType)
  | struct (name : String) (fields : List (String × IRType))
  | named (name : String)
deriving Repr

mutual
/-- `Type::size`: scalar widths, fixed 64-bit pointers, `len × element` for
arrays, field-size sum for structs, and `0` from the default match arm
(which covers both `Void` and `Named`). -/
def IRType.size : IRType → Nat
  | .int w => w
  | .float w => w
  | .pointer _ => 64
  | .array len e => len * IRType.size e
  | .struct _ fields => IRType.sizeFields fields
  | _ => 0

/-- Sum of the field sizes of a struct (the loop inside `Type::size`). -/
def IRType.sizeFields : List (String × IRType) → Nat
  | [] => 0
  | (_, t) :: rest => IRType.size t + IRType.sizeFields rest
end

/-- `Type::element_type`: a struct yields a `Named` reference to itself,
pointers and arrays yield their element; every other shape hits
`unreachable!` (modelled as `none`). -/
def IRType.elementType : IRType → Option IRType
  | .struct name _ => some (.named name)
  | .pointer e => some e
  | .array _ e => some e
  | _ => none

/-- Association-list lookup with string keys (stands in for `HashMap::get`). -/
def lookupList {α : Type} : List (String × α) → String → Option α
  | [], _ => none
  | (k, v) :: rest, n => if k = n then some v else lookupList rest n

/-! ## IR values and instructions (`codegen/ir.rs`) -/

/-- `ir::Expr` value references.  Shared `ID` cells are arena slots (`Nat`). -/
inductive IRExpr where
  | i64 (v : Int)
  | f64 (tok : Int)
  | bool (b : Bool)
  | cstring (s : String)
  | identifier (typ : IRType) (name : String)
  | localIdentifier (typ : IRType) (id : Nat)
  | globalIdentifier (typ : IRType) (id : Nat)
deriving Repr

/-- `Expr::type_`. -/
def IRExpr.typeOf : IRExpr → IRType
  | .i64 _ => .int 64
  | .f64 _ => .float 64
  | .bool _ => .int 1
  | .cstring s => .array s.length (.int 8)
  | .identifier t _ => t
  | .localIdentifier t _ => t
  | .globalIdentifier t _ => t

/-- `ir::Instruction`.  A `Label` wraps only its `ID`, so it is carried here
directly as the label's arena slot; `Branch`/`Goto` reference label slots. -/
inductive Instruction where
  | ret (val : Option IRExpr)
  | label (id : Nat)
  | branch (cond : IRExpr) (ifTrue ifFalse : Nat)
  | goto (label : Nat)
  | gep (id : Nat) (loadFrom : IRExpr) (indices : List Nat)
  | functionCall (id : Nat) (funcName : String) (retType : IRType) (args : List IRExpr)
  | binaryOperation (id : Nat) (opName : String) (lhs rhs : IRExpr)
  | malloca (id : Nat) (typ : IRType)
  | bitCast (id : Nat) (fromId : Nat) (targetType : IRType)
  | load (id : Nat) (loadFrom : IRExpr)
  | store (source : IRExpr) (destination : Nat)
deriving Repr

/-- `Instruction::is_terminator`: `Return`, `Branch` and `Goto`. -/
def Instruction.isTerminator : Instruction → Bool
  | .ret _ => true
  | .branch _ _ _ => true
  | .goto _ => true
  | _ => false

/-- `Instruction::set_id`: the cell an instruction writes its number to, if
any.  `Label` and the six value-producing kinds return their cell; `Return`,
`Branch`, `Goto` and `Store` fall through to `false` (no cell). -/
def Instruction.ownerId : Instruction → Option Nat
  | .label id => some id
  | .load id _ => some id
  | .malloca id _ => some id
  | .bitCast id _ _ => some id
  | .gep id _ _ => some id
  | .functionCall id _ _ _ => some id
  | .binaryOperation id _ _ _ => some id
  | _ => none

/-- `ir::GlobalName`: hoisted string constants are named by a shared `ID`
cell, ordinary globals by a string. -/
inductive GlobalName where
  | id (n : Nat)
  | str (s : String)
deriving Repr

/-- `ir::Variable` (a global). -/
structure GlobalVar where
  name : GlobalName
  expr : IRExpr
deriving Repr

/-! ## Lowering state

The Rust code threads `&mut Module` and `&mut Body` (plus fresh heap cells
for every `ID::new()`).  `GenState` flattens the two borrows and the arena
allocator into one record: `knownFunctions`/`types`/`globals` belong to the
`Module`, `instrs`/`vars` to the `Body` under construction. -/

structure GenState where
  knownFunctions : List (String × IRType)
  types : List (String × IRType)
  globals : List GlobalVar
  instrs : List Instruction
  vars : List (String × IRType)
  fresh : Nat
deriving Repr

/-- `ID::new()` allocates a fresh cell (placeholder value `0`): the cell is
the current allocator mark `s.fresh`, and `bump` advances the allocator. -/
def bump (s : GenState) : GenState :=
  { s with fresh := s.fresh + 1 }

/-- `self.instructions.push(inst)`. -/
def push (i : Instruction) (s : GenState) : GenState :=
  { s with instrs := s.instrs ++ [i] }

/-- `module.push_variable(v)`. -/
def pushGlobal (g : GlobalVar) (s : GenState) : GenState :=
  { s with globals := s.globals ++ [g] }

/-- `Module::lookup_type` (an `unwrap`: missing name is a panic = `none`). -/
def lookupType (s : GenState) (n : String) : Option IRType :=
  lookupList s.types n

/-- `Body::end_with_terminator`. -/
def endWithTerminator (s : GenState) : Bool :=
  match s.instrs.getLast? with
  | none => false
  | some i => i.isTerminator

/-- `Type::from_ast`: builtin names map to fixed shapes, any other name is
resolved against the module type table (`unwrap` panic = `none`). -/
def typeFromAst (t : ParsedType) (s : GenState) : Option IRType :=
  match t.name with
  | "void" => some .void
  | "int" => some (.int 64)
  | "f64" => some (.float 64)
  | "bool" => some (.int 1)
  | "_c_string" => some (.pointer (.int 8))
  | n => lookupType s n

/-- The linear scan over struct fields in the member-access arm of
`Body::expr_from_ast`: index of the first field whose name matches, or the
number of fields when none does. -/
def fieldIndex : List (String × IRType) → String → Nat
  | [], _ => 0
  | (n, _) :: rest, access => if n = access then 0 else 1 + fieldIndex rest access

/-- The `if let Named(name) = v.type_()` block of the member-access arm:
resolve one level of `Named` indirection against the module type table. -/
def resolveStructType (s : GenState) : IRType → Option IRType
  | .named n => lookupType s n
  | t => some t

mutual
/-- `Body::expr_from_ast`, fuel-indexed (the Rust recursion is unbounded
through `HashMap` lookups, so structural recursion is not available);
`none` models both fuel exhaustion and the panics in the source. -/
def exprFromAst : Nat → AExpr → GenState → Option (IRExpr × GenState)
  | 0, _, _ => none
  | fuel + 1, e, s =>
    match e with
    | .string lit =>
      let strId := s.fresh
      let s := pushGlobal ⟨.id strId, .cstring lit⟩ (bump s)
      let loadId := s.fresh
      let arrayType := IRType.array lit.length (.int 8)
      let s := push (.gep loadId (.globalIdentifier (.pointer arrayType) strId) [0, 0])
        (bump s)
      let ptrToStr := IRExpr.localIdentifier (.pointer (.int 8)) loadId
      let callId := s.fresh
      let s := bump s
      match lookupType s "string" with
      | none => none
      | some retType =>
        let s := push (.functionCall callId "@\"string::new\"" retType [ptrToStr]) s
        some (.localIdentifier retType callId, s)
    | .classConstruction cname inits =>
      let allocaId := s.fresh
      let s := bump s
      match lookupType s cname with
      | none => none
      | some classType =>
        let s := push (.malloca allocaId classType) s
        let bitcastId := s.fresh
        let s := push (.bitCast bitcastId allocaId classType) (bump s)
        match classType with
        | .struct _ fields =>
          match lowerFields fuel classType bitcastId 0 fields inits s with
          | none => none
          | some s => some (.localIdentifier classType bitcastId, s)
        | _ => none
    | .memberAccess base access =>
      match exprFromAst fuel base s with
      | none => none
      | some (v, s) =>
        match resolveStructType s v.typeOf with
        | none => none
        | some (.struct _ fields) =>
          let i := fieldIndex fields access
          match fields.get? i with
          | none => none
          | some (_, resultType) =>
            let gepId := s.fresh
            let s := push (.gep gepId v [0, i]) (bump s)
            let loadId := s.fresh
            let s := push (.load loadId (.localIdentifier resultType gepId)) (bump s)
            some (.localIdentifier resultType loadId, s)
        | some _ => none
    | .binary lhs rhs _op =>
      let id := s.fresh
      let s := bump s
      match exprFromAst fuel lhs s with
      | none => none
      | some (l, s) =>
        match exprFromAst fuel rhs s with
        | none => none
        | some (r, s) =>
          let resultTyp := l.typeOf
          let s := push (.binaryOperation id "add" l r) s
          some (.localIdentifier resultTyp id, s)
    | .funcCall f args =>
      match exprFromAst fuel f s with
      | none => none
      | some (fv, s) =>
        match fv with
        | .identifier _ name =>
          match lookupList s.knownFunctions name with
          | none => none
          | some retType =>
            match lowerArgs fuel args s with
            | none => none
            | some (argsExpr, s) =>
              let id := s.fresh
              let s := push (.functionCall id ("@" ++ name) retType argsExpr) (bump s)
              some (.localIdentifier retType id, s)
        | _ => none
    | .identifier name =>
      match lookupList s.vars name with
      | some t => some (.identifier t name, s)
      | none =>
        match lookupList s.knownFunctions name with
        | some t => some (.identifier t name, s)
        | none => none
    | .int i => some (.i64 i, s)
    | .f64 tok => some (.f64 tok, s)
    | .bool b => some (.bool b, s)
    | .list _ => none

/-- The argument loop of the `FuncCall` arm of `expr_from_ast`. -/
def lowerArgs : Nat → List AExpr → GenState → Option (List IRExpr × GenState)
  | 0, _, _ => none
  | _ + 1, [], s => some ([], s)
  | fuel + 1, a :: rest, s =>
    match exprFromAst fuel a s with
    | none => none
    | some (v, s) =>
      match lowerArgs fuel rest s with
      | none => none
      | some (vs, s) => some (v :: vs, s)

/-- The store-into-field loop of the `ClassConstruction` arm of
`expr_from_ast`; `idx` is the `enumerate` counter.  A missing named
initializer is the `expect` panic (= `none`). -/
def lowerFields : Nat → IRType → Nat → Nat → List (String × IRType) →
    List (String × AExpr) → GenState → Option GenState
  | 0, _, _, _, _, _, _ => none
  | _ + 1, _, _, _, [], _, s => some s
  | fuel + 1, classType, bitcastId, idx, (fname, _) :: rest, inits, s =>
    let gepId := s.fresh
    let s := push (.gep gepId (.localIdentifier classType bitcastId) [0, idx]) (bump s)
    match lookupList inits fname with
    | none => none
    | some initValue =>
      match exprFromAst fuel initValue s with
      | none => none
      | some (v, s) =>
        let s := push (.store v gepId) s
        lowerFields fuel classType bitcastId (idx + 1) rest inits s
end

mutual
/-- One iteration of the statement loop in `Body::generate_instructions`. -/
def genStmt : Nat → Statement → GenState → Option GenState
  | 0, _, _ => none
  | fuel + 1, st, s =>
    match st with
    | .ret e =>
      match e with
      | none => some (push (.ret none) s)
      | some ex =>
        match exprFromAst fuel ex s with
        | none => none
        | some (v, s) => some (push (.ret (some v)) s)
    | .expression e =>
      match exprFromAst fuel e s with
      | none => none
      | some (_, s) => some s
    | .varDecl _name _typ init =>
      match exprFromAst fuel init s with
      | none => none
      | some (_, s) => some s
    | .ifBlock clauses elseBlock =>
      let leaveId := s.fresh
      let s := bump s
      match lowerClauses fuel leaveId clauses s with
      | none => none
      | some s =>
        match genStmts fuel elseBlock.statements s with
        | none => none
        | some s =>
          let s := if endWithTerminator s then s else push (.goto leaveId) s
          some (push (.label leaveId) s)

/-- `Body::generate_instructions`: the statement loop. -/
def genStmts : Nat → List Statement → GenState → Option GenState
  | 0, _, _ => none
  | _ + 1, [], s => some s
  | fuel + 1, st :: rest, s =>
    match genStmt fuel st s with
    | none => none
    | some s => genStmts fuel rest s

/-- One iteration of the clause loop in the `IfBlock` arm of
`generate_instructions`. -/
def lowerClause : Nat → Nat → AExpr → Block → GenState → Option GenState
  | 0, _, _, _, _ => none
  | fuel + 1, leaveId, cond, blk, s =>
    let thenId := s.fresh
    let s := bump s
    let nextId := s.fresh
    let s := bump s
    match exprFromAst fuel cond s with
    | none => none
    | some (c, s) =>
      let s := push (.branch c thenId nextId) s
      let s := push (.label thenId) s
      match genStmts fuel blk.statements s with
      | none => none
      | some s =>
        let s := if endWithTerminator s then s else push (.goto leaveId) s
        some (push (.label nextId) s)

/-- The clause loop of the `IfBlock` arm. -/
def lowerClauses : Nat → Nat → List (AExpr × Block) → GenState → Option GenState
  | 0, _, _, _ => none
  | _ + 1, _, [], s => some s
  | fuel + 1, leaveId, (cond, blk) :: rest, s =>
    match lowerClause fuel leaveId cond blk s with
    | none => none
    | some s => lowerClauses fuel leaveId rest s
end

/-! ## Value numbering (the terminal pass of `Body::from_ast`) -/

/-- The cells written by the numbering pass, in stream order: the owner
cells of the value-producing instructions and labels. -/
def ownersList : List Instruction → List Nat
  | [] => []
  | i :: rest =>
    match i.ownerId with
    | some n => n :: ownersList rest
    | none => ownersList rest

/-- The numbering loop of `Body::from_ast`: walk the stream once; an
instruction whose `set_id` returns `true` receives the counter, which then
advances.  Writes are accumulated newest-first. -/
def runNumber : List Instruction → Nat → List (Nat × Nat) → List (Nat × Nat) × Nat
  | [], c, acc => (acc, c)
  | i :: rest, c, acc =>
    match i.ownerId with
    | some cell => runNumber rest (c + 1) ((cell, c) :: acc)
    | none => runNumber rest c acc

/-- The final value of an `ID` cell: the newest write, or the placeholder
`0` set by `ID::new`. -/
def cellValue (ns : List (Nat × Nat)) (x : Nat) : Nat :=
  match ns with
  | [] => 0
  | (c, v) :: rest => if c = x then v else cellValue rest x

/-! ## `Body::from_ast` -/

/-- The result of lowering one function body: its instruction stream, its
local-variable table, and the cell writes of the numbering pass. -/
structure LoweredBody where
  instrs : List Instruction
  vars : List (String × IRType)
  numbers : List (Nat × Nat)
deriving Repr

/-- The parameter loop at the top of `Body::from_ast` (HashMap insertion is
modelled by prepending; `lookupList` finds the newest binding first). -/
def initParams : List (String × ParsedType) → GenState → Option GenState
  | [], s => some s
  | (n, t) :: rest, s =>
    match typeFromAst t s with
    | none => none
    | some ty => initParams rest { s with vars := (n, ty) :: s.vars }

/-- `Body::from_ast`: seed the local table with the parameters, lower the
body (an expression body is lowered and returned; a block body runs the
statement loop), then run the numbering pass over the finished stream. -/
def bodyFromAst (fuel : Nat) (b : ABody) (params : List (String × ParsedType))
    (s : GenState) : Option (LoweredBody × GenState) :=
  let s0 : GenState := { s with instrs := [], vars := [] }
  match initParams params s0 with
  | none => none
  | some s1 =>
    let lowered : Option GenState :=
      match b with
      | .exprBody e =>
        match exprFromAst fuel e s1 with
        | none => none
        | some (v, s2) => some (push (.ret (some v)) s2)
      | .blockBody blk => genStmts fuel blk.statements s1
    match lowered with
    | none => none
    | some s2 => some (⟨s2.instrs, s2.vars, (runNumber s2.instrs 1 []).1⟩, s2)

/-! ## The allocation invariant of the lowering pass

Freshly allocated cells are distinct; in particular the cells naming hoisted
string globals are disjoint from the cells owned by instructions, and the
owned cells of one body's stream never repeat. -/

/-- The `ID` cells used as `GlobalName`s of the module's global variables. -/
def globalIds : List GlobalVar → List Nat
  | [] => []
  | g :: rest =>
    match g.name with
    | .id n => n :: globalIds rest
    | .str _ => globalIds rest

/-- Every owned cell and every global-name cell was allocated by the arena,
the two sets are disjoint, and no cell is owned by two instructions. -/
def GoodState (s : GenState) : Prop :=
  (∀ i ∈ ownersList s.instrs, i < s.fresh) ∧
  (∀ g ∈ globalIds s.globals, g < s.fresh) ∧
  (∀ g ∈ globalIds s.globals, g ∉ ownersList s.instrs) ∧
  (ownersList s.instrs).Nodup

/-- The module part of `GoodState`, for a state whose body part is empty. -/
def GoodModule (s : GenState) : Prop :=
  ∀ g ∈ globalIds s.globals, g < s.fresh

/-- Relation between a state and any later state of the same lowering run:
the allocator only grows and every new owned or global-name cell is at least
as large as the earlier allocator mark. -/
def StepOK (a b : GenState) : Prop :=
  a.fresh ≤ b.fresh ∧
  (∀ i ∈ ownersList b.instrs, i ∈ ownersList a.instrs ∨ a.fresh ≤ i) ∧
  (∀ g ∈ globalIds b.globals, g ∈ globalIds a.globals ∨ a.fresh ≤ g)

/-! ## Semantic checker (`src/src/semantic/mod.rs`)

`check_program`, `check_function_body` and `check_block` below are
translated from `semantic/mod.rs`.  Their collaborators `semantic/types.rs`
(the checker's `Type` and `TypeEnv`) and `semantic/error.rs` are not in the
provided sources and are modelled from the spec where noted. -/

/-- Modelled from the spec: the error taxonomy of §7 (`semantic/error.rs`
is missing from the sources); source locations are dropped. -/
inductive SemErr where
  | unknownType (name : String)
  | nameRedefined (name : String)
  | typeMismatch
  | deadCodeAfterReturn
deriving Repr

/-- A checking failure: a reported `SemanticError`, or a Rust panic such as
`unimplemented!`, which aborts the process instead of returning `Err`. -/
inductive Failure where
  | err (e : SemErr)
  | fatal (msg : String)
deriving Repr

/-- Modelled from the spec: the checker-side type representation
(`semantic/types.rs` is missing from the sources) — builtin scalar types,
list types whose empty-literal element type is a free variable, function
types, and class (struct-shaped) nominal types. -/
inductive SType where
  | void
  | int
  | f64
  | bool
  | str
  | list (elem : SType)
  | freeVar
  | func (params : List SType) (ret : SType)
  | classType (name : String)
deriving Repr

mutual
/-- Modelled from the spec: `unify` — structural equality, except that a
free element type (an empty list literal) unifies with anything and lists
unify elementwise. -/
def sUnify : SType → SType → Bool
  | .freeVar, _ => true
  | _, .freeVar => true
  | .list a, .list b => sUnify a b
  | .void, .void => true
  | .int, .int => true
  | .f64, .f64 => true
  | .bool, .bool => true
  | .str, .str => true
  | .classType a, .classType b => a == b
  | .func ps r, .func qs t => sUnifyList ps qs && sUnify r t
  | _, _ => false

/-- Pairwise unification of function parameter lists. -/
def sUnifyList : List SType → List SType → Bool
  | [], [] => true
  | a :: arest, b :: brest => sUnify a b && sUnifyList arest brest
  | _, _ => false
end

/-- Modelled from the spec: the scoped type environment — one per-scope
namespace shared by variables and functions, a per-scope type table, a
parent chain, and the in-class-scope flag. -/
inductive STypeEnv where
  | mk (vars : List (String × SType)) (types : List (String × SType))
      (parent : Option STypeEnv) (inClassScope : Bool)

/-- Current-scope variable/function bindings. -/
def STypeEnv.vars : STypeEnv → List (String × SType)
  | .mk v _ _ _ => v

/-- `TypeEnv::new()`. -/
def STypeEnv.empty : STypeEnv := .mk [] [] none false

/-- `TypeEnv::with_parent`. -/
def STypeEnv.child (env : STypeEnv) : STypeEnv := .mk [] [] (some env) false

/-- Setting `in_class_scope = true`. -/
def STypeEnv.setInClass : STypeEnv → STypeEnv
  | .mk v t p _ => .mk v t p true

/-- Variable lookup walking the scope chain outward. -/
def STypeEnv.lookupVar : STypeEnv → String → Option SType
  | .mk v _ none _, n => lookupList v n
  | .mk v _ (some pe) _, n =>
    match lookupList v n with
    | some t => some t
    | none => pe.lookupVar n

/-- Type-name lookup walking the scope chain outward. -/
def STypeEnv.lookupTypeName : STypeEnv → String → Option SType
  | .mk _ t none _, n => lookupList t n
  | .mk _ t (some pe) _, n =>
    match lookupList t n with
    | some ty => some ty
    | none => pe.lookupTypeName n

/-- Modelled from the spec: `add_variable` fails with `NameRedefined` when
the name is already bound in the *current* scope (ancestor scopes do not
matter); variables and functions share this one namespace. -/
def addVariable (env : STypeEnv) (name : String) (t : SType) :
    Except Failure STypeEnv :=
  match env with
  | .mk v ty p ic =>
    match lookupList v name with
    | some _ => .error (.err (.nameRedefined name))
    | none => .ok (.mk ((name, t) :: v) ty p ic)

/-- Modelled from the spec: `add_type` registers a class type under its
name in the current scope's type table. -/
def addType (env : STypeEnv) (name : String) (t : SType) :
    Except Failure STypeEnv :=
  match env with
  | .mk v ty p ic =>
    match lookupList ty name with
    | some _ => .error (.err (.nameRedefined name))
    | none => .ok (.mk v ((name, t) :: ty) p ic)

/-- Modelled from the spec: `TypeEnv::from` — builtins, `List[T]` generic
instantiation, then the type tables of the scope chain; an unresolved name
is `UnknownType`. -/
def sFrom (env : STypeEnv) : ParsedType → Except Failure SType
  | .mk "void" [] => .ok .void
  | .mk "int" [] => .ok .int
  | .mk "f64" [] => .ok .f64
  | .mk "bool" [] => .ok .bool
  | .mk "string" [] => .ok .str
  | .mk "List" [a] => do
    let t ← sFrom env a
    .ok (.list t)
  | .mk n _ =>
    match env.lookupTypeName n with
    | some t => .ok t
    | none => .error (.err (.unknownType n))

mutual
/-- Modelled from the spec: `type_of_expr` — literals have fixed types,
identifiers are looked up through the scope chain, a call yields the
callee's declared return type, an empty list has a free element type, and a
non-empty list takes its first element's type with every element unifying
against it. -/
def typeOfExpr (env : STypeEnv) : AExpr → Except Failure SType
  | .int _ => .ok .int
  | .f64 _ => .ok .f64
  | .bool _ => .ok .bool
  | .string _ => .ok .str
  | .identifier n =>
    match env.lookupVar n with
    | some t => .ok t
    | none => .error (.err (.unknownType n))
  | .binary lhs rhs _ => do
    let tl ← typeOfExpr env lhs
    let _ ← typeOfExpr env rhs
    .ok tl
  | .funcCall f _ => do
    let tf ← typeOfExpr env f
    match tf with
    | .func _ ret => .ok ret
    | _ => .error (.err .typeMismatch)
  | .list [] => .ok (.list .freeVar)
  | .list (e :: rest) => do
    let t ← typeOfExpr env e
    let _ ← elemsUnify env t rest
    .ok (.list t)
  | .classConstruction n _ => .ok (.classType n)
  | .memberAccess _ _ => .error (.fatal "member access typing not modelled")

/-- The element loop of list-literal typing. -/
def elemsUnify (env : STypeEnv) (t : SType) : List AExpr → Except Failure Unit
  | [] => .ok ()
  | e :: rest => do
    let te ← typeOfExpr env e
    if sUnify t te then elemsUnify env t rest
    else .error (.err .typeMismatch)
end

/-- The parameter-type loop of `new_function_type`. -/
def paramTypes (env : STypeEnv) :
    List (String × ParsedType) → Except Failure (List SType)
  | [] => .ok []
  | (_, t) :: rest => do
    let ty ← sFrom env t
    let tys ← paramTypes env rest
    .ok (ty :: tys)

/-- Modelled from the spec: `new_function_type` — a function type built
from the declared parameter types and return type. -/
def newFunctionType (env : STypeEnv) (f : AFunction) : Except Failure SType := do
  let ps ← paramTypes env f.parameters
  let r ← sFrom env f.retTyp
  .ok (.func ps r)

mutual
/-- One statement of `check_block`'s loop; `isLast` is `i == len - 1`.
Translated from `semantic/mod.rs`. -/
def checkStmt (env : STypeEnv) (st : Statement) (isLast : Bool) (rt : SType) :
    Except Failure STypeEnv :=
  match st with
  | .ret e => do
    let t ← match e with
      | some ex => typeOfExpr env ex
      | none => .ok SType.void
    if isLast then
      if sUnify rt t then .ok env else .error (.err .typeMismatch)
    else .error (.err .deadCodeAfterReturn)
  | .varDecl name typ init => do
    let defT ← sFrom env typ
    let actT ← typeOfExpr env init
    if sUnify defT actT then do
      let env1 ← addVariable env name defT
      if isLast then
        if sUnify rt .void then .ok env1 else .error (.err .typeMismatch)
      else .ok env1
    else .error (.err .typeMismatch)
  | .expression e => do
    let t ← typeOfExpr env e
    if sUnify .void t then
      if isLast then
        if sUnify rt .void then .ok env else .error (.err .typeMismatch)
      else .ok env
    else .error (.err .typeMismatch)
  | .ifBlock clauses elseBlock => do
    let env1 ← checkClauses env clauses rt
    checkBlock env1 elseBlock rt

/-- The clause loop of the `IfBlock` arm of `check_block`: every condition
unifies with `Bool`, every clause block is checked in the *same*
environment, which is threaded through. -/
def checkClauses (env : STypeEnv) (clauses : List (AExpr × Block)) (rt : SType) :
    Except Failure STypeEnv :=
  match clauses with
  | [] => .ok env
  | (cond, blk) :: rest => do
    let ct ← typeOfExpr env cond
    if sUnify .bool ct then do
      let env1 ← checkBlock env blk rt
      checkClauses env1 rest rt
    else .error (.err .typeMismatch)

/-- The statement loop of `check_block`. -/
def checkStmts (env : STypeEnv) (stmts : List Statement) (rt : SType) :
    Except Failure STypeEnv :=
  match stmts with
  | [] => .ok env
  | st :: rest => do
    let env1 ← checkStmt env st rest.isEmpty rt
    checkStmts env1 rest rt

/-- `check_block`: an empty block unifies `Void` against the return type
and reports the dead-code diagnostic when that fails; a non-empty block
runs the statement loop.  The `&mut TypeEnv` threading of the source is
modelled by returning the updated environment. -/
def checkBlock (env : STypeEnv) (b : Block) (rt : SType) :
    Except Failure STypeEnv :=
  match b with
  | .mk stmts =>
    match stmts with
    | [] =>
      if sUnify rt .void then .ok env
      else .error (.err .deadCodeAfterReturn)
    | _ :: _ => checkStmts env stmts rt
end

/-- The processing of a proper prefix of a block's statement list: every
statement of the prefix is checked with `isLast = false`. -/
def checkSeq (env : STypeEnv) (stmts : List Statement) (rt : SType) :
    Except Failure STypeEnv :=
  match stmts with
  | [] => .ok env
  | st :: rest => do
    let env1 ← checkStmt env st false rt
    checkSeq env1 rest rt

/-- The parameter loop of `check_function_body`. -/
def addParams (env : STypeEnv) :
    List (String × ParsedType) → Except Failure STypeEnv
  | [] => .ok env
  | (n, t) :: rest => do
    let ty ← sFrom env t
    let env1 ← addVariable env n ty
    addParams env1 rest

/-- `check_function_body`: the return type is resolved against the
checker's root environment (`self.type_env` in the source), the parameters
live in a fresh child scope of `env`, and the body is checked against the
return type. -/
def checkFunctionBody (root : STypeEnv) (env : STypeEnv) (f : AFunction) :
    Except Failure Unit := do
  let rt ← sFrom root f.retTyp
  let env1 ← addParams (STypeEnv.child env) f.parameters
  match f.body with
  | some (.exprBody e) => do
    let t ← typeOfExpr env1 e
    if sUnify rt t then .ok () else .error (.err .typeMismatch)
  | some (.blockBody b) => do
    let _ ← checkBlock env1 b rt
    .ok ()
  | none => .ok ()

/-- The member loop of pass 1: register each method / static method under
its mangled `Class::method` name in the enclosing scope. -/
def addMembers (env : STypeEnv) (cname : String) :
    List ClassMember → Except Failure STypeEnv
  | [] => .ok env
  | .staticMethod f :: rest => do
    let ft ← newFunctionType env f
    let env1 ← addVariable env (cname ++ "::" ++ f.name) ft
    addMembers env1 cname rest
  | .method f :: rest => do
    let ft ← newFunctionType env f
    let env1 ← addVariable env (cname ++ "::" ++ f.name) ft
    addMembers env1 cname rest
  | .field _ _ :: rest => addMembers env cname rest

/-- Pass 1 of `check_program`: register every class's type (`new_class` is
modelled from the spec as the struct-shaped nominal type) and its member
signatures. -/
def pass1 (env : STypeEnv) : List TopAst → Except Failure STypeEnv
  | [] => .ok env
  | .classDecl name members :: rest => do
    let env1 ← addType env name (.classType name)
    let env2 ← addMembers env1 name members
    pass1 env2 rest
  | _ :: rest => pass1 env rest

/-- Pass 2 of `check_program`: register every top-level variable's declared
type and every top-level function's signature in the outer scope. -/
def pass2 (env : STypeEnv) : List TopAst → Except Failure STypeEnv
  | [] => .ok env
  | .variableDecl name typ _ :: rest => do
    let t ← sFrom env typ
    let env1 ← addVariable env name t
    pass2 env1 rest
  | .functionDecl f :: rest => do
    let ft ← newFunctionType env f
    let env1 ← addVariable env f.name ft
    pass2 env1 rest
  | _ :: rest => pass2 env rest

/-- The field-binding loop of pass 3's class arm. -/
def bindFields (env : STypeEnv) : List ClassMember → Except Failure STypeEnv
  | [] => .ok env
  | .field fname ftyp :: rest => do
    let t ← sFrom env ftyp
    let env1 ← addVariable env fname t
    bindFields env1 rest
  | _ :: rest => bindFields env rest

/-- The method-checking loop of pass 3's class arm. -/
def checkMethods (root : STypeEnv) (cenv : STypeEnv) :
    List ClassMember → Except Failure Unit
  | [] => .ok ()
  | .staticMethod f :: rest => do
    let _ ← checkFunctionBody root cenv f
    checkMethods root cenv rest
  | .method f :: rest => do
    let _ ← checkFunctionBody root cenv f
    checkMethods root cenv rest
  | .field _ _ :: rest => checkMethods root cenv rest

/-- Pass 3 of `check_program`: check every variable initializer against its
declared type, every function body, every class's method bodies in a child
scope with the fields bound and the class flag set — and hit the
`unimplemented!()` panic on any trait declaration. -/
def pass3 (env : STypeEnv) : List TopAst → Except Failure Unit
  | [] => .ok ()
  | .variableDecl _ typ init :: rest => do
    let t ← typeOfExpr env init
    let dt ← sFrom env typ
    if sUnify dt t then pass3 env rest
    else .error (.err .typeMismatch)
  | .functionDecl f :: rest => do
    let _ ← checkFunctionBody env env f
    pass3 env rest
  | .classDecl _ members :: rest => do
    let cenv ← bindFields (STypeEnv.child env) members
    let _ ← checkMethods env cenv.setInClass members
    pass3 env rest
  | .traitDecl _ :: _ => .error (.fatal "not yet implemented: trait checking")

/-- `check_program`: the three passes in order; the first failure anywhere
aborts the whole call. -/
def checkProgram (tops : List TopAst) : Except Failure Unit := do
  let env1 ← pass1 STypeEnv.empty tops
  let env2 ← pass2 env1 tops
  pass3 env2 tops

/-! ## Concrete states and programs used by the claim instances -/

/-- An empty module/lowering state. -/
def st0 : GenState := ⟨[], [], [], [], [], 0⟩

/-- A module state that has registered the runtime `string` class type. -/
def stStr : GenState :=
  ⟨[], [("string", .struct "string" [("c_str", .pointer (.int 8))])], [], [], [], 0⟩

/-- A body whose single statement lowers one string literal. -/
def demoBody : ABody :=
  .blockBody (.mk [.expression (.string "hi")])

/-- The result of lowering `demoBody` (total by construction). -/
def demoOut : LoweredBody × GenState :=
  (bodyFromAst 20 demoBody [] stStr).getD (⟨[], [], []⟩, st0)

/-- The parsed type `int`. -/
def ptInt : ParsedType := .mk "int" []

/-- The parsed type `void`. -/
def ptVoid : ParsedType := .mk "void" []

/-- A body that declares a local and then reads it back:
`{ y: int = 1; return y; }`. -/
def bugBody : ABody :=
  .blockBody (.mk
    [.varDecl "y" ptInt (.int 1),
     .ret (some (.identifier "y"))])

/-- The block-bodied function `x(): int { y: int = 1; return y; }`
(accepted by the checker in `test_check_local_variable_define`). -/
def bugFunction : AFunction := ⟨"x", [], ptInt, some bugBody⟩

/-- The empty function `x(): void {}`. -/
def fnX : AFunction := ⟨"x", [], ptVoid, some (.blockBody (.mk []))⟩

/-! ## Lemmas about the numbering pass -/

theorem runNumber_counter (l : List Instruction) :
    ∀ c acc, (runNumber l c acc).2 = c + (ownersList l).length := by
  induction l with
  | nil => intro c acc; simp [runNumber, ownersList]
  | cons i rest ih =>
    intro c acc
    cases h : i.ownerId with
    | none => simp only [runNumber, ownersList, h]; exact ih c acc
    | some n =>
      simp only [runNumber, ownersList, h, List.length_cons]
      rw [ih (c + 1)]
      omega

theorem runNumber_frame (l : List Instruction) :
    ∀ c acc x, x ∉ ownersList l →
      cellValue (runNumber l c acc).1 x = cellValue acc x := by
  induction l with
  | nil => intro c acc x _; rfl
  | cons i rest ih =>
    intro c acc x hx
    cases h : i.ownerId with
    | none =>
      simp only [runNumber, h]
      exact ih c acc x (by simpa [ownersList, h] using hx)
    | some n =>
      simp only [runNumber, h]
      have hxr : x ∉ ownersList rest := by
        intro hmem; exact hx (by simp [ownersList, h, hmem])
      have hxn : n ≠ x := by
        intro he; exact hx (by simp [ownersList, h, he])
      rw [ih (c + 1) ((n, c) :: acc) x hxr]
      simp [cellValue, hxn]

theorem runNumber_get (l : List Instruction) :
    ∀ c acc, (ownersList l).Nodup →
      ∀ j n, (ownersList l).get? j = some n →
        cellValue (runNumber l c acc).1 n = c + j := by
  induction l with
  | nil => intro c acc _ j n hj; simp [ownersList] at hj
  | cons i rest ih =>
    intro c acc hnd j n hj
    cases h : i.ownerId with
    | none =>
      simp only [ownersList, h] at hnd hj
      simp only [runNumber, h]
      exact ih c acc hnd j n hj
    | some m =>
      simp only [ownersList, h, List.nodup_cons] at hnd hj
      simp only [runNumber, h]
      cases j with
      | zero =>
        simp only [List.get?_cons_zero, Option.some.injEq] at hj
        subst hj
        rw [runNumber_frame rest (c + 1) ((m, c) :: acc) m hnd.1]
        simp [cellValue]
      | succ j' =>
        simp only [List.get?_cons_succ] at hj
        rw [ih (c + 1) ((m, c) :: acc) hnd.2 j' n hj]
        omega

theorem StepOK.rfl (s : GenState) : StepOK s s :=
  ⟨le_refl _, fun _ hi => Or.inl hi, fun _ hg => Or.inl hg⟩

theorem StepOK.trans {a b c : GenState} (h₁ : StepOK a b) (h₂ : StepOK b c) :
    StepOK a c := by
  refine ⟨le_trans h₁.1 h₂.1, ?_, ?_⟩
  · intro i hi
    rcases h₂.2.1 i hi with h | h
    · exact h₁.2.1 i h
    · exact Or.inr (le_trans h₁.1 h)
  · intro g hg
    rcases h₂.2.2 g hg with h | h
    · exact h₁.2.2 g h
    · exact Or.inr (le_trans h₁.1 h)

theorem ownersList_append (l₁ l₂ : List Instruction) :
    ownersList (l₁ ++ l₂) = ownersList l₁ ++ ownersList l₂ := by
  induction l₁ with
  | nil => rfl
  | cons i rest ih =>
    cases h : i.ownerId <;> simp [ownersList, h, ih]

theorem ownersList_push_none {i : Instruction} (h : i.ownerId = none) (s : GenState) :
    ownersList (push i s).instrs = ownersList s.instrs := by
  show ownersList (s.instrs ++ [i]) = _
  rw [ownersList_append]
  simp [ownersList, h]

theorem ownersList_push_some {i : Instruction} {n : Nat} (h : i.ownerId = some n)
    (s : GenState) : ownersList (push i s).instrs = ownersList s.instrs ++ [n] := by
  show ownersList (s.instrs ++ [i]) = _
  rw [ownersList_append]
  simp [ownersList, h]

theorem globalIds_append (l₁ l₂ : List GlobalVar) :
    globalIds (l₁ ++ l₂) = globalIds l₁ ++ globalIds l₂ := by
  induction l₁ with
  | nil => rfl
  | cons g rest ih =>
    cases g with
    | mk name e => cases name <;> simp [globalIds, ih]

theorem globalIds_pushGlobal_id (n : Nat) (e : IRExpr) (s : GenState) :
    globalIds (pushGlobal ⟨.id n, e⟩ s).globals = globalIds s.globals ++ [n] := by
  show globalIds (s.globals ++ [⟨.id n, e⟩]) = _
  rw [globalIds_append]; rfl

/-! Step lemmas relative to a fixed base state `a`. -/

theorem stepOK_bumpFresh {a s : GenState} (h : StepOK a s) :
    StepOK a (bump s) := by
  refine ⟨Nat.le_succ_of_le h.1, h.2.1, h.2.2⟩

theorem stepOK_push_none {a s : GenState} {i : Instruction} (h : StepOK a s)
    (hi : i.ownerId = none) : StepOK a (push i s) := by
  refine ⟨h.1, ?_, h.2.2⟩
  intro x hx
  rw [ownersList_push_none hi] at hx
  exact h.2.1 x hx

theorem stepOK_push_ge {a s : GenState} {i : Instruction} {n : Nat} (h : StepOK a s)
    (hi : i.ownerId = some n) (hn : a.fresh ≤ n) : StepOK a (push i s) := by
  refine ⟨h.1, ?_, h.2.2⟩
  intro x hx
  rw [ownersList_push_some hi] at hx
  rcases List.mem_append.mp hx with hx | hx
  · exact h.2.1 x hx
  · simp at hx; subst hx; exact Or.inr hn

theorem stepOK_pushGlobal_id {a s : GenState} {n : Nat} {e : IRExpr} (h : StepOK a s)
    (hn : a.fresh ≤ n) : StepOK a (pushGlobal ⟨.id n, e⟩ s) := by
  refine ⟨h.1, h.2.1, ?_⟩
  intro x hx
  rw [globalIds_pushGlobal_id] at hx
  rcases List.mem_append.mp hx with hx | hx
  · exact h.2.2 x hx
  · simp at hx; subst hx; exact Or.inr hn

/-! Preservation of `GoodState` by the primitive operations. -/

theorem good_bumpFresh {s : GenState} (h : GoodState s) :
    GoodState (bump s) := by
  refine ⟨?_, ?_, h.2.2.1, h.2.2.2⟩
  · intro i hi; exact Nat.lt_succ_of_lt (h.1 i hi)
  · intro g hg; exact Nat.lt_succ_of_lt (h.2.1 g hg)

theorem good_push_none {s : GenState} {i : Instruction} (h : GoodState s)
    (hi : i.ownerId = none) : GoodState (push i s) := by
  refine ⟨?_, h.2.1, ?_, ?_⟩
  · intro x hx; rw [ownersList_push_none hi] at hx; exact h.1 x hx
  · intro g hg; rw [ownersList_push_none hi]; exact h.2.2.1 g hg
  · rw [ownersList_push_none hi]; exact h.2.2.2

theorem good_push_owned {s : GenState} {i : Instruction} {n : Nat} (h : GoodState s)
    (hi : i.ownerId = some n) (hn : n < s.fresh) (hno : n ∉ ownersList s.instrs)
    (hng : n ∉ globalIds s.globals) : GoodState (push i s) := by
  refine ⟨?_, h.2.1, ?_, ?_⟩
  · intro x hx
    rw [ownersList_push_some hi] at hx
    rcases List.mem_append.mp hx with hx | hx
    · exact h.1 x hx
    · simp at hx; subst hx; exact hn
  · intro g hg
    rw [ownersList_push_some hi]
    intro hmem
    rcases List.mem_append.mp hmem with hx | hx
    · exact h.2.2.1 g hg hx
    · simp at hx; subst hx; exact hng hg
  · rw [ownersList_push_some hi]
    exact List.Nodup.append h.2.2.2 (List.nodup_singleton n)
      (by intro x hx hx'; simp at hx'; subst hx'; exact hno hx)

theorem good_pushGlobal_id {s : GenState} {n : Nat} {e : IRExpr} (h : GoodState s)
    (hn : n < s.fresh) (hno : n ∉ ownersList s.instrs) :
    GoodState (pushGlobal ⟨.id n, e⟩ s) := by
  refine ⟨h.1, ?_, ?_, h.2.2.2⟩
  · intro g hg
    rw [globalIds_pushGlobal_id] at hg
    rcases List.mem_append.mp hg with hg | hg
    · exact h.2.1 g hg
    · simp at hg; subst hg; exact hn
  · intro g hg
    rw [globalIds_pushGlobal_id] at hg
    rcases List.mem_append.mp hg with hg | hg
    · exact h.2.2.1 g hg
    · simp at hg; subst hg; exact hno

/-- A cell allocated at mark `a.fresh` is untouched by any later steps:
it is neither owned nor used as a global name in any state reached from the
bumped state, and stays below the final allocator mark. -/
theorem fresh_cell_free {a s : GenState} (hG : GoodState a)
    (h : StepOK (bump a) s) :
    a.fresh ∉ ownersList s.instrs ∧ a.fresh ∉ globalIds s.globals ∧
      a.fresh < s.fresh := by
  refine ⟨?_, ?_, lt_of_lt_of_le (Nat.lt_succ_self _) h.1⟩
  · intro hmem
    rcases h.2.1 _ hmem with hx | hx
    · exact absurd (hG.1 _ hx) (lt_irrefl _)
    · have hx' : a.fresh + 1 ≤ a.fresh := hx
      omega
  · intro hmem
    rcases h.2.2 _ hmem with hx | hx
    · exact absurd (hG.2.1 _ hx) (lt_irrefl _)
    · have hx' : a.fresh + 1 ≤ a.fresh := hx
      omega

theorem not_mem_of_lt {l : List Nat} {n : Nat} (h : ∀ x ∈ l, x < n) : n ∉ l :=
  fun hmem => lt_irrefl n (h n hmem)

/-- Allocate a cell and immediately push the instruction that owns it. -/
theorem good_alloc_push {s : GenState} {i : Instruction} (hG : GoodState s)
    (hi : i.ownerId = some s.fresh) :
    GoodState (push i (bump s)) ∧ StepOK s (push i (bump s)) := by
  constructor
  · exact good_push_owned (good_bumpFresh hG) hi (Nat.lt_succ_self _)
      (not_mem_of_lt hG.1) (not_mem_of_lt hG.2.1)
  · exact stepOK_push_ge (stepOK_bumpFresh (StepOK.rfl s)) hi (le_refl _)

/-- Allocate a cell and immediately use it as the name of a hoisted global. -/
theorem good_alloc_pushGlobal {s : GenState} (e : IRExpr) (hG : GoodState s) :
    GoodState (pushGlobal ⟨.id s.fresh, e⟩ (bump s)) ∧
      StepOK s (pushGlobal ⟨.id s.fresh, e⟩ (bump s)) := by
  constructor
  · exact good_pushGlobal_id (good_bumpFresh hG) (Nat.lt_succ_self _) (not_mem_of_lt hG.1)
  · exact stepOK_pushGlobal_id (stepOK_bumpFresh (StepOK.rfl s)) (le_refl _)

/-- Push an instruction owning a cell that was allocated earlier, at mark
`a.fresh`, with arbitrary lowering steps in between. -/
theorem good_push_postponed {a s : GenState} {i : Instruction} (hGa : GoodState a)
    (hG : GoodState s) (hstep : StepOK (bump a) s) (hi : i.ownerId = some a.fresh) :
    GoodState (push i s) ∧ StepOK a (push i s) := by
  obtain ⟨h1, h2, h3⟩ := fresh_cell_free hGa hstep
  refine ⟨good_push_owned hG hi h3 h1 h2, ?_⟩
  exact stepOK_push_ge ((stepOK_bumpFresh (StepOK.rfl a)).trans hstep) hi (le_refl _)

/-- A cell allocated at mark `b.fresh` stays free through a later push of an
instruction owning a *different*, earlier cell (the `then`-label push that
happens after the `next` label was already allocated), and through any
further steps. -/
theorem cell_free_through_push {b c d : GenState} {i : Instruction} {m : Nat}
    (hGb : GoodState b) (h1 : StepOK (bump b) c) (hi : i.ownerId = some m)
    (hm : m ≠ b.fresh) (h2 : StepOK (push i c) d) :
    b.fresh ∉ ownersList d.instrs ∧ b.fresh ∉ globalIds d.globals ∧
      b.fresh < d.fresh := by
  obtain ⟨hc1, hc2, hc3⟩ := fresh_cell_free hGb h1
  refine ⟨?_, ?_, ?_⟩
  · intro hmem
    rcases h2.2.1 _ hmem with hx | hx
    · rw [ownersList_push_some hi] at hx
      rcases List.mem_append.mp hx with hx | hx
      · exact hc1 hx
      · simp at hx; exact hm hx.symm
    · have hx' : c.fresh ≤ b.fresh := hx
      omega
  · intro hmem
    rcases h2.2.2 _ hmem with hx | hx
    · exact hc2 hx
    · have hx' : c.fresh ≤ b.fresh := hx
      omega
  · have hd : c.fresh ≤ d.fresh := h2.1
    omega

/-- Every successful step of the expression-lowering family preserves the
allocation invariant and only adds cells at or above the entry mark. -/
theorem lower_inv : ∀ fuel : Nat,
    (∀ e s r s', exprFromAst fuel e s = some (r, s') → GoodState s →
       GoodState s' ∧ StepOK s s') ∧
    (∀ args s rs s', lowerArgs fuel args s = some (rs, s') → GoodState s →
       GoodState s' ∧ StepOK s s') ∧
    (∀ ct bid idx fields inits s s',
       lowerFields fuel ct bid idx fields inits s = some s' → GoodState s →
       GoodState s' ∧ StepOK s s') := by
  intro fuel
  induction fuel with
  | zero =>
    refine ⟨?_, ?_, ?_⟩
    · intro e s r s' h _; simp [exprFromAst] at h
    · intro args s rs s' h _; simp [lowerArgs] at h
    · intro ct bid idx fields inits s s' h _; simp [lowerFields] at h
  | succ fuel ih =>
    obtain ⟨ihE, ihA, ihF⟩ := ih
    refine ⟨?_, ?_, ?_⟩
    · intro e s r s' h hG
      cases e with
      | int i =>
        simp only [exprFromAst, Option.some.injEq, Prod.mk.injEq] at h
        obtain ⟨rfl, rfl⟩ := h
        exact ⟨hG, StepOK.rfl s⟩
      | f64 tok =>
        simp only [exprFromAst, Option.some.injEq, Prod.mk.injEq] at h
        obtain ⟨rfl, rfl⟩ := h
        exact ⟨hG, StepOK.rfl s⟩
      | bool b =>
        simp only [exprFromAst, Option.some.injEq, Prod.mk.injEq] at h
        obtain ⟨rfl, rfl⟩ := h
        exact ⟨hG, StepOK.rfl s⟩
      | list elems =>
        simp [exprFromAst] at h
      | identifier name =>
        simp only [exprFromAst] at h
        split at h
        · simp only [Option.some.injEq, Prod.mk.injEq] at h
          obtain ⟨rfl, rfl⟩ := h
          exact ⟨hG, StepOK.rfl s⟩
        · split at h
          · simp only [Option.some.injEq, Prod.mk.injEq] at h
            obtain ⟨rfl, rfl⟩ := h
            exact ⟨hG, StepOK.rfl s⟩
          · exact absurd h (by simp)
      | string lit =>
        simp only [exprFromAst] at h
        split at h
        · exact absurd h (by simp)
        · rename_i x retType hstr
          simp only [Option.some.injEq, Prod.mk.injEq] at h
          obtain ⟨rfl, rfl⟩ := h
          have h1 := good_alloc_pushGlobal (IRExpr.cstring lit) hG
          have h2 := good_alloc_push (i := .gep
              (pushGlobal ⟨.id s.fresh, .cstring lit⟩ (bump s)).fresh
              (.globalIdentifier (.pointer (.array lit.length (.int 8))) s.fresh) [0, 0])
            h1.1 rfl
          have h3 := good_alloc_push (i := .functionCall
              (push (.gep (pushGlobal ⟨.id s.fresh, .cstring lit⟩ (bump s)).fresh
                  (.globalIdentifier (.pointer (.array lit.length (.int 8))) s.fresh) [0, 0])
                (bump (pushGlobal ⟨.id s.fresh, .cstring lit⟩ (bump s)))).fresh
              "@\"string::new\"" retType
              [.localIdentifier (.pointer (.int 8))
                (pushGlobal ⟨.id s.fresh, .cstring lit⟩ (bump s)).fresh])
            h2.1 rfl
          exact ⟨h3.1, h1.2.trans (h2.2.trans h3.2)⟩
      | binary lhs rhs op =>
        simp only [exprFromAst] at h
        split at h
        · exact absurd h (by simp)
        · rename_i l s₁ hlhs
          split at h
          · exact absurd h (by simp)
          · rename_i r₂ s₂ hrhs
            simp only [Option.some.injEq, Prod.mk.injEq] at h
            obtain ⟨rfl, rfl⟩ := h
            have hl := ihE _ _ _ _ hlhs (good_bumpFresh hG)
            have hr := ihE _ _ _ _ hrhs hl.1
            exact good_push_postponed
              (i := .binaryOperation s.fresh "add" l r₂) hG hr.1 (hl.2.trans hr.2) rfl
      | funcCall f args =>
        simp only [exprFromAst] at h
        split at h
        · exact absurd h (by simp)
        · rename_i fv s₁ hf
          split at h
          · rename_i typ name
            split at h
            · exact absurd h (by simp)
            · rename_i retType hlook
              split at h
              · exact absurd h (by simp)
              · rename_i argsExpr s₂ hargs
                simp only [Option.some.injEq, Prod.mk.injEq] at h
                obtain ⟨rfl, rfl⟩ := h
                have h1 := ihE _ _ _ _ hf hG
                have h2 := ihA _ _ _ _ hargs h1.1
                have h3 := good_alloc_push (i := .functionCall s₂.fresh ("@" ++ name)
                    retType argsExpr) h2.1 rfl
                exact ⟨h3.1, h1.2.trans (h2.2.trans h3.2)⟩
          · exact absurd h (by simp)
      | memberAccess base access =>
        simp only [exprFromAst] at h
        split at h
        · exact absurd h (by simp)
        · rename_i v s₁ hbase
          split at h
          · exact absurd h (by simp)
          · rename_i sname fields hres
            split at h
            · exact absurd h (by simp)
            · rename_i fname resultType hget
              simp only [Option.some.injEq, Prod.mk.injEq] at h
              obtain ⟨rfl, rfl⟩ := h
              have h1 := ihE _ _ _ _ hbase hG
              have h2 := good_alloc_push (i := .gep s₁.fresh v
                  [0, fieldIndex fields access]) h1.1 rfl
              have h3 := good_alloc_push (i := .load
                  (push (.gep s₁.fresh v [0, fieldIndex fields access]) (bump s₁)).fresh
                  (.localIdentifier resultType s₁.fresh)) h2.1 rfl
              exact ⟨h3.1, h1.2.trans (h2.2.trans h3.2)⟩
          · exact absurd h (by simp)
      | classConstruction cname inits =>
        simp only [exprFromAst] at h
        split at h
        · exact absurd h (by simp)
        · rename_i classType hlook
          split at h
          · rename_i sname fields
            split at h
            · exact absurd h (by simp)
            · rename_i s₅ hfields
              simp only [Option.some.injEq, Prod.mk.injEq] at h
              obtain ⟨rfl, rfl⟩ := h
              have h1 := good_alloc_push
                (i := .malloca s.fresh (.struct sname fields)) hG rfl
              have h2 := good_alloc_push (i := .bitCast
                  (push (.malloca s.fresh (.struct sname fields)) (bump s)).fresh s.fresh
                  (.struct sname fields))
                h1.1 rfl
              have h3 := ihF _ _ _ _ _ _ _ hfields h2.1
              exact ⟨h3.1, h1.2.trans (h2.2.trans h3.2)⟩
          · exact absurd h (by simp)
    · intro args s rs s' h hG
      cases args with
      | nil =>
        simp only [lowerArgs, Option.some.injEq, Prod.mk.injEq] at h
        obtain ⟨rfl, rfl⟩ := h
        exact ⟨hG, StepOK.rfl s⟩
      | cons a rest =>
        simp only [lowerArgs] at h
        split at h
        · exact absurd h (by simp)
        · rename_i v s₁ hv
          split at h
          · exact absurd h (by simp)
          · rename_i vs s₂ hvs
            simp only [Option.some.injEq, Prod.mk.injEq] at h
            obtain ⟨rfl, rfl⟩ := h
            have h1 := ihE _ _ _ _ hv hG
            have h2 := ihA _ _ _ _ hvs h1.1
            exact ⟨h2.1, h1.2.trans h2.2⟩
    · intro ct bid idx fields inits s s' h hG
      cases fields with
      | nil =>
        simp only [lowerFields, Option.some.injEq] at h
        subst h
        exact ⟨hG, StepOK.rfl s⟩
      | cons fpair rest =>
        obtain ⟨fname, ftyp⟩ := fpair
        simp only [lowerFields] at h
        split at h
        · exact absurd h (by simp)
        · rename_i initValue hinit
          split at h
          · exact absurd h (by simp)
          · rename_i v s₂ hv
            have h1 := good_alloc_push (i := .gep s.fresh
                (.localIdentifier ct bid) [0, idx]) hG rfl
            have h2 := ihE _ _ _ _ hv h1.1
            have h3 : GoodState (push (.store v s.fresh) s₂) ∧
                StepOK s₂ (push (.store v s.fresh) s₂) :=
              ⟨good_push_none h2.1 rfl, stepOK_push_none (StepOK.rfl s₂) rfl⟩
            have h4 := ihF _ _ _ _ _ _ _ h h3.1
            exact ⟨h4.1, h1.2.trans (h2.2.trans (h3.2.trans h4.2))⟩

/-- Every successful step of the statement-lowering family preserves the
allocation invariant and only adds cells at or above the entry mark. -/
theorem gen_inv : ∀ fuel : Nat,
    (∀ st s s', genStmt fuel st s = some s' → GoodState s →
       GoodState s' ∧ StepOK s s') ∧
    (∀ stmts s s', genStmts fuel stmts s = some s' → GoodState s →
       GoodState s' ∧ StepOK s s') ∧
    (∀ leaveId cond blk s s', lowerClause fuel leaveId cond blk s = some s' →
       GoodState s → GoodState s' ∧ StepOK s s') ∧
    (∀ leaveId clauses s s', lowerClauses fuel leaveId clauses s = some s' →
       GoodState s → GoodState s' ∧ StepOK s s') := by
  intro fuel
  induction fuel with
  | zero =>
    refine ⟨?_, ?_, ?_, ?_⟩
    · intro st s s' h _; simp [genStmt] at h
    · intro stmts s s' h _; simp [genStmts] at h
    · intro leaveId cond blk s s' h _; simp [lowerClause] at h
    · intro leaveId clauses s s' h _; simp [lowerClauses] at h
  | succ fuel ih =>
    obtain ⟨ihS, ihSs, ihC, ihCs⟩ := ih
    refine ⟨?_, ?_, ?_, ?_⟩
    · intro st s s' h hG
      cases st with
      | ret e =>
        cases e with
        | none =>
          simp only [genStmt, Option.some.injEq] at h
          subst h
          exact ⟨good_push_none hG rfl, stepOK_push_none (StepOK.rfl s) rfl⟩
        | some ex =>
          simp only [genStmt] at h
          split at h
          · exact absurd h (by simp)
          · rename_i v s₁ hv
            simp only [Option.some.injEq] at h
            subst h
            have h1 := (lower_inv fuel).1 _ _ _ _ hv hG
            exact ⟨good_push_none h1.1 rfl,
              h1.2.trans (stepOK_push_none (StepOK.rfl s₁) rfl)⟩
      | expression e =>
        simp only [genStmt] at h
        split at h
        · exact absurd h (by simp)
        · rename_i v s₁ hv
          simp only [Option.some.injEq] at h
          subst h
          exact (lower_inv fuel).1 _ _ _ _ hv hG
      | varDecl name typ init =>
        simp only [genStmt] at h
        split at h
        · exact absurd h (by simp)
        · rename_i v s₁ hv
          simp only [Option.some.injEq] at h
          subst h
          exact (lower_inv fuel).1 _ _ _ _ hv hG
      | ifBlock clauses elseBlock =>
        simp only [genStmt] at h
        split at h
        · exact absurd h (by simp)
        · rename_i s₂ hcl
          split at h
          · exact absurd h (by simp)
          · rename_i s₃ hel
            simp only [Option.some.injEq] at h
            subst h
            have h1 := ihCs _ _ _ _ hcl (good_bumpFresh hG)
            have h2 := ihSs _ _ _ hel h1.1
            by_cases hterm : endWithTerminator s₃ = true
            · rw [if_pos hterm]
              have hp := good_push_postponed (i := .label s.fresh) hG h2.1
                (h1.2.trans h2.2) rfl
              exact hp
            · rw [if_neg hterm]
              have h3 : GoodState (push (.goto s.fresh) s₃) ∧
                  StepOK s₃ (push (.goto s.fresh) s₃) :=
                ⟨good_push_none h2.1 rfl, stepOK_push_none (StepOK.rfl s₃) rfl⟩
              have hp := good_push_postponed (i := .label s.fresh) hG h3.1
                (h1.2.trans (h2.2.trans h3.2)) rfl
              exact hp
    · intro stmts s s' h hG
      cases stmts with
      | nil =>
        simp only [genStmts, Option.some.injEq] at h
        subst h
        exact ⟨hG, StepOK.rfl s⟩
      | cons st rest =>
        simp only [genStmts] at h
        split at h
        · exact absurd h (by simp)
        · rename_i s₁ hst
          have h1 := ihS _ _ _ hst hG
          have h2 := ihSs _ _ _ h h1.1
          exact ⟨h2.1, h1.2.trans h2.2⟩
    · intro leaveId cond blk s s' h hG
      simp only [lowerClause] at h
      split at h
      · exact absurd h (by simp)
      · rename_i c s₁ hc
        split at h
        · exact absurd h (by simp)
        · rename_i s₂ hblk
          simp only [Option.some.injEq] at h
          subst h
          have h1 := (lower_inv fuel).1 _ _ _ _ hc (good_bumpFresh (good_bumpFresh hG))
          have h2 : GoodState (push (.branch c s.fresh (bump s).fresh) s₁) ∧
              StepOK s₁ (push (.branch c s.fresh (bump s).fresh) s₁) :=
            ⟨good_push_none h1.1 rfl, stepOK_push_none (StepOK.rfl s₁) rfl⟩
          have h3 := good_push_postponed (i := .label s.fresh) hG h2.1
            ((stepOK_bumpFresh (StepOK.rfl (bump s))).trans (h1.2.trans h2.2)) rfl
          have h4 := ihSs _ _ _ hblk h3.1
          have hb1 : (bump s).fresh = s.fresh + 1 := rfl
          have hsd : StepOK s s₂ := h3.2.trans h4.2
          by_cases hterm : endWithTerminator s₂ = true
          · rw [if_pos hterm]
            have hfree := cell_free_through_push (b := bump s) (i := .label s.fresh)
              (good_bumpFresh hG) (h1.2.trans h2.2) rfl (by omega) h4.2
            refine ⟨good_push_owned h4.1 rfl hfree.2.2 hfree.1 hfree.2.1, ?_⟩
            exact stepOK_push_ge hsd rfl (by omega)
          · rw [if_neg hterm]
            have h45 : GoodState (push (.goto leaveId) s₂) ∧
                StepOK s₂ (push (.goto leaveId) s₂) :=
              ⟨good_push_none h4.1 rfl, stepOK_push_none (StepOK.rfl s₂) rfl⟩
            have hfree := cell_free_through_push (b := bump s) (i := .label s.fresh)
              (good_bumpFresh hG) (h1.2.trans h2.2) rfl (by omega)
              (h4.2.trans h45.2)
            refine ⟨good_push_owned h45.1 rfl hfree.2.2 hfree.1 hfree.2.1, ?_⟩
            exact stepOK_push_ge (hsd.trans h45.2) rfl (by omega)
    · intro leaveId clauses s s' h hG
      cases clauses with
      | nil =>
        simp only [lowerClauses, Option.some.injEq] at h
        subst h
        exact ⟨hG, StepOK.rfl s⟩
      | cons cb rest =>
        obtain ⟨cond, blk⟩ := cb
        simp only [lowerClauses] at h
        split at h
        · exact absurd h (by simp)
        · rename_i s₁ hcb
          have h1 := ihC _ _ _ _ _ hcb hG
          have h2 := ihCs _ _ _ _ h h1.1
          exact ⟨h2.1, h1.2.trans h2.2⟩

/-- `initParams` touches only the local-variable table. -/
theorem initParams_shape : ∀ ps s s', initParams ps s = some s' →
    s'.instrs = s.instrs ∧ s'.globals = s.globals ∧ s'.fresh = s.fresh := by
  intro ps
  induction ps with
  | nil =>
    intro s s' h
    simp only [initParams, Option.some.injEq] at h
    subst h
    exact ⟨rfl, rfl, rfl⟩
  | cons p rest ih =>
    intro s s' h
    obtain ⟨n, t⟩ := p
    simp only [initParams] at h
    split at h
    · exact absurd h (by simp)
    · have hr := ih _ _ h
      exact ⟨hr.1, hr.2.1, hr.2.2⟩

/-- A successfully lowered body satisfies the allocation invariant, and the
numbering field is exactly the terminal pass over its instruction stream. -/
theorem bodyFromAst_good {fuel : Nat} {b : ABody} {params : List (String × ParsedType)}
    {s : GenState} {lb : LoweredBody} {s' : GenState} (hM : GoodModule s)
    (h : bodyFromAst fuel b params s = some (lb, s')) :
    GoodState s' ∧ lb.instrs = s'.instrs ∧
      lb.numbers = (runNumber s'.instrs 1 []).1 := by
  cases b with
  | exprBody e =>
    simp only [bodyFromAst] at h
    split at h
    · exact absurd h (by simp)
    · rename_i s1 hinit
      have hshape := initParams_shape _ _ _ hinit
      have hinstr : s1.instrs = [] := hshape.1
      have hglob : s1.globals = s.globals := hshape.2.1
      have hfresh : s1.fresh = s.fresh := hshape.2.2
      have hG1 : GoodState s1 := by
        refine ⟨?_, ?_, ?_, ?_⟩
        · intro i hi; rw [hinstr] at hi; simp [ownersList] at hi
        · intro g hg; rw [hglob] at hg; rw [hfresh]; exact hM g hg
        · intro g hg; rw [hinstr]; exact List.not_mem_nil g
        · rw [hinstr]; exact List.nodup_nil
      split at h
      · exact absurd h (by simp)
      · rename_i s2 hlow
        split at hlow
        · exact absurd hlow (by simp)
        · rename_i v s3 hv
          simp only [Option.some.injEq] at hlow
          subst hlow
          simp only [Option.some.injEq, Prod.mk.injEq] at h
          obtain ⟨rfl, rfl⟩ := h
          have h1 := (lower_inv fuel).1 _ _ _ _ hv hG1
          exact ⟨good_push_none h1.1 rfl, rfl, rfl⟩
  | blockBody blk =>
    simp only [bodyFromAst] at h
    split at h
    · exact absurd h (by simp)
    · rename_i s1 hinit
      have hshape := initParams_shape _ _ _ hinit
      have hinstr : s1.instrs = [] := hshape.1
      have hglob : s1.globals = s.globals := hshape.2.1
      have hfresh : s1.fresh = s.fresh := hshape.2.2
      have hG1 : GoodState s1 := by
        refine ⟨?_, ?_, ?_, ?_⟩
        · intro i hi; rw [hinstr] at hi; simp [ownersList] at hi
        · intro g hg; rw [hglob] at hg; rw [hfresh]; exact hM g hg
        · intro g hg; rw [hinstr]; exact List.not_mem_nil g
        · rw [hinstr]; exact List.nodup_nil
      split at h
      · exact absurd h (by simp)
      · rename_i s2 hgen
        simp only [Option.some.injEq, Prod.mk.injEq] at h
        obtain ⟨rfl, rfl⟩ := h
        have h1 := (gen_inv fuel).2.1 _ _ _ hgen hG1
        exact ⟨h1.1, rfl, rfl⟩

/-- Records pushed at the end of a stream decide `end_with_terminator`. -/
theorem endWithTerminator_push (i : Instruction) (s : GenState) :
    endWithTerminator (push i s) = i.isTerminator := by
  simp [endWithTerminator, push]

/-- `genStmt` on a `Return` statement always leaves a terminator at the end
of the stream. -/
theorem genStmt_ret_terminator : ∀ fuel e s s',
    genStmt fuel (Statement.ret e) s = some s' → endWithTerminator s' = true := by
  intro fuel e s s' h
  cases fuel with
  | zero => simp [genStmt] at h
  | succ fuel =>
    cases e with
    | none =>
      simp only [genStmt, Option.some.injEq] at h
      subst h
      simp [endWithTerminator_push, Instruction.isTerminator]
    | some ex =>
      simp only [genStmt] at h
      split at h
      · exact absurd h (by simp)
      · rename_i v s₁ hv
        simp only [Option.some.injEq] at h
        subst h
        simp [endWithTerminator_push, Instruction.isTerminator]

/-- Lowering a statement list that ends in a `Return` statement leaves a
terminator at the end of the stream. -/
theorem genStmts_ret_terminator : ∀ stmts0 fuel e s s',
    genStmts fuel (stmts0 ++ [Statement.ret e]) s = some s' →
    endWithTerminator s' = true := by
  intro stmts0
  induction stmts0 with
  | nil =>
    intro fuel e s s' h
    cases fuel with
    | zero => simp [genStmts] at h
    | succ fuel =>
      simp only [List.nil_append, genStmts] at h
      split at h
      · exact absurd h (by simp)
      · rename_i s₁ hst
        cases fuel with
        | zero => simp [genStmts] at h
        | succ fuel =>
          simp only [genStmts, Option.some.injEq] at h
          subst h
          exact genStmt_ret_terminator _ _ _ _ hst
  | cons st rest ih =>
    intro fuel e s s' h
    cases fuel with
    | zero => simp [genStmts] at h
    | succ fuel =>
      simp only [List.cons_append, genStmts] at h
      split at h
      · exact absurd h (by simp)
      · rename_i s₁ hst
        exact ih _ _ _ _ h

/-- Splitting a successful `Except` bind. -/
theorem except_bind_ok {α β : Type} {ex : Except Failure α}
    {f : α → Except Failure β} {u : β} (h : (ex >>= f) = .ok u) :
    ∃ a, ex = .ok a ∧ f a = .ok u := by
  cases ex with
  | error e => exact absurd h (by simp [Bind.bind, Except.bind])
  | ok a => exact ⟨a, rfl, h⟩

/-! ## The claims -/

/-- Claim C1: value numbering.  For every instruction stream whose owner
cells are pairwise distinct — which the last conjunct shows holds for every
successfully lowered function body — the single in-order walk of
`Body::from_ast` gives the `j`-th owner cell (the shared `ID` of the
value-producing instructions `Load`/`Malloca`/`BitCast`/`GEP`/
`FunctionCall`/`BinaryOperation` and of every `Label`, in stream order) the
number `j + 1`, i.e. sequential integers starting at 1; every other cell
keeps the placeholder `0`; the counter advances exactly once per numbered
cell, so `Return`/`Branch`/`Goto`/`Store` (which own no cell) never consume
a number; and two distinct positions receive distinct numbers.  The pass is
a pure function of the stream, so lowering the same AST twice yields
identical numbers. -/
theorem spec_C1 (l : List Instruction) (hnd : (ownersList l).Nodup) :
    (∀ j n, (ownersList l).get? j = some n →
      cellValue (runNumber l 1 []).1 n = j + 1)
    ∧ (∀ x, x ∉ ownersList l → cellValue (runNumber l 1 []).1 x = 0)
    ∧ (runNumber l 1 []).2 = 1 + (ownersList l).length
    ∧ (∀ j k nj nk, (ownersList l).get? j = some nj →
        (ownersList l).get? k = some nk → j ≠ k →
        cellValue (runNumber l 1 []).1 nj ≠ cellValue (runNumber l 1 []).1 nk)
    ∧ (∀ v, (Instruction.ret v).ownerId = none)
    ∧ (∀ c t f, (Instruction.branch c t f).ownerId = none)
    ∧ (∀ lb, (Instruction.goto lb).ownerId = none)
    ∧ (∀ e d, (Instruction.store e d).ownerId = none)
    ∧ (∀ i, (Instruction.label i).ownerId = some i)
    ∧ (∀ i e, (Instruction.load i e).ownerId = some i)
    ∧ (∀ i t, (Instruction.malloca i t).ownerId = some i)
    ∧ (∀ i f t, (Instruction.bitCast i f t).ownerId = some i)
    ∧ (∀ i e ix, (Instruction.gep i e ix).ownerId = some i)
    ∧ (∀ i n t a, (Instruction.functionCall i n t a).ownerId = some i)
    ∧ (∀ i o a b, (Instruction.binaryOperation i o a b).ownerId = some i)
    ∧ (∀ fuel b params s lb s', GoodModule s →
        bodyFromAst fuel b params s = some (lb, s') →
        (ownersList lb.instrs).Nodup ∧
          lb.numbers = (runNumber lb.instrs 1 []).1) := by
  refine ⟨?_, ?_, ?_, ?_, fun _ => rfl, fun _ _ _ => rfl, fun _ => rfl,
    fun _ _ => rfl, fun _ => rfl, fun _ _ => rfl, fun _ _ => rfl,
    fun _ _ _ => rfl, fun _ _ _ => rfl, fun _ _ _ _ => rfl,
    fun _ _ _ _ => rfl, ?_⟩
  · intro j n hj
    rw [runNumber_get l 1 [] hnd j n hj]
    omega
  · intro x hx
    rw [runNumber_frame l 1 [] x hx]
    rfl
  · exact runNumber_counter l 1 []
  · intro j k nj nk hj hk hne
    rw [runNumber_get l 1 [] hnd j nj hj, runNumber_get l 1 [] hnd k nk hk]
    omega
  · intro fuel b params s lb s' hM h
    have hg := bodyFromAst_good hM h
    rw [hg.2.1]
    exact ⟨hg.1.2.2.2, hg.2.2⟩

/-- Witness for C1: a concrete stream (`Label 5`, `Return`, `GEP 7`) where
the second owner cell gets number 2, and the concrete lowered `demoBody`. -/
theorem spec_C1_witness :
    (ownersList [Instruction.label 5, .ret none, .gep 7 (.i64 1) [0]]).Nodup
    ∧ cellValue
        (runNumber [Instruction.label 5, .ret none, .gep 7 (.i64 1) [0]] 1 []).1 7
        = 1 + 1
    ∧ GoodModule stStr
    ∧ (ownersList demoOut.1.instrs).Nodup := by
  refine ⟨by decide, ?_, fun g hg => absurd hg (by simp [stStr, globalIds]), ?_⟩
  · exact (spec_C1 [Instruction.label 5, .ret none, .gep 7 (.i64 1) [0]]
      (by decide)).1 1 7 rfl
  · exact ((spec_C1 [] (by decide)).2.2.2.2.2.2.2.2.2.2.2.2.2.2.2
      20 demoBody [] stStr demoOut.1 demoOut.2
      (fun g hg => absurd hg (by simp [stStr, globalIds])) rfl).1

/-- Claim C2: control-flow terminator elision.  Under the (always
obtainable) hypotheses naming the intermediate states of one clause of an
if/elseif/else chain, `lowerClause` appends `Goto(leave)` after the lowered
clause block exactly when the stream does not already end in a terminator:
the appended suffix is `[Goto leave, Label next]` in the non-terminator
case and just `[Label next]` otherwise; a clause block ending in a `Return`
statement always ends the stream in a terminator (hence gets no
`Goto(leave)`); and the else block of the `IfBlock` arm is treated the same
way before the final `leave` label. -/
theorem spec_C2 (fuel leaveId : Nat) (cond : AExpr) (blk : Block) (s : GenState)
    (c : IRExpr) (s₁ s₂ : GenState)
    (hc : exprFromAst fuel cond (bump (bump s)) = some (c, s₁))
    (hb : genStmts fuel blk.statements
      (push (.label s.fresh) (push (.branch c s.fresh (bump s).fresh) s₁))
        = some s₂) :
    lowerClause (fuel + 1) leaveId cond blk s =
      some (push (.label (bump s).fresh)
        (if endWithTerminator s₂ then s₂ else push (.goto leaveId) s₂))
    ∧ (endWithTerminator s₂ = false →
        (push (.label (bump s).fresh) (push (.goto leaveId) s₂)).instrs
          = s₂.instrs ++ [.goto leaveId, .label (bump s).fresh])
    ∧ (endWithTerminator s₂ = true →
        (push (.label (bump s).fresh) s₂).instrs
          = s₂.instrs ++ [.label (bump s).fresh])
    ∧ (∀ stmts0 e, blk.statements = stmts0 ++ [Statement.ret e] →
        endWithTerminator s₂ = true)
    ∧ (∀ clauses elseBlock s₄ s₅,
        lowerClauses fuel s.fresh clauses (bump s) = some s₄ →
        genStmts fuel elseBlock.statements s₄ = some s₅ →
        genStmt (fuel + 1) (Statement.ifBlock clauses elseBlock) s =
          some (push (.label s.fresh)
            (if endWithTerminator s₅ then s₅ else push (.goto s.fresh) s₅))) := by
  refine ⟨?_, ?_, ?_, ?_, ?_⟩
  · simp only [lowerClause, hc, hb]
  · intro hterm
    simp [push, List.append_assoc]
  · intro hterm
    simp [push]
  · intro stmts0 e heq
    rw [heq] at hb
    exact genStmts_ret_terminator _ _ _ _ _ hb
  · intro clauses elseBlock s₄ s₅ hcl hel
    simp only [genStmt, hcl, hel]

/-- Witness for C2: a clause whose block is `{ return; }` ends in a
terminator, so no `Goto(leave)` is appended. -/
theorem spec_C2_witness :
    endWithTerminator (push (.ret none) (push (.label 0)
      (push (.branch (.bool true) 0 1) (bump (bump st0))))) = true :=
  (spec_C2 5 99 (.bool true) (Block.mk [.ret none]) st0 (.bool true)
    (bump (bump st0))
    (push (.ret none) (push (.label 0)
      (push (.branch (.bool true) 0 1) (bump (bump st0)))))
    rfl rfl).2.2.2.1 [] none rfl

/-- Claim C3: dead-code checking.  (a) An empty block whose `Void` fails to
unify with the declared return type is rejected with the
dead-code-after-return diagnostic.  (b) In a non-empty block, once checking
reaches a `return` statement that is not last (the earlier statements check
as non-last statements and the return's own expression types), `check_block`
rejects with the dead-code-after-return error. -/
theorem spec_C3 :
    (∀ env rt, sUnify rt SType.void = false →
      checkBlock env (Block.mk []) rt = .error (.err .deadCodeAfterReturn))
    ∧ (∀ env stmts1 env₁ (e : Option AExpr) (t : SType) rest rt,
        rest ≠ [] →
        checkSeq env stmts1 rt = .ok env₁ →
        (match e with
          | some ex => typeOfExpr env₁ ex
          | none => .ok SType.void) = .ok t →
        checkBlock env (Block.mk (stmts1 ++ Statement.ret e :: rest)) rt =
          .error (.err .deadCodeAfterReturn)) := by
  constructor
  · intro env rt hun
    simp [checkBlock, hun]
  · intro env stmts1 env₁ e t rest rt hrest hseq hty
    have key : ∀ (s1 : List Statement) (env env₁ : STypeEnv),
        checkSeq env s1 rt = .ok env₁ →
        checkStmts env (s1 ++ Statement.ret e :: rest) rt =
          checkStmts env₁ (Statement.ret e :: rest) rt := by
      intro s1
      induction s1 with
      | nil =>
        intro env env₁ hs
        simp only [checkSeq, Except.ok.injEq] at hs
        subst hs
        rfl
      | cons st s1' ih =>
        intro env env₁ hs
        simp only [checkSeq] at hs
        cases hst : checkStmt env st false rt with
        | error e' =>
          rw [hst] at hs
          exact absurd hs (by simp [Bind.bind, Except.bind])
        | ok env' =>
          rw [hst] at hs
          have hs' : checkSeq env' s1' rt = .ok env₁ := hs
          have hfalse : (s1' ++ Statement.ret e :: rest).isEmpty = false := by
            cases s1' <;> rfl
          show (do
              let env1 ← checkStmt env st
                (s1' ++ Statement.ret e :: rest).isEmpty rt
              checkStmts env1 (s1' ++ Statement.ret e :: rest) rt) =
            checkStmts env₁ (Statement.ret e :: rest) rt
          rw [hfalse, hst]
          exact ih env' env₁ hs'
    have hblock : checkBlock env (Block.mk (stmts1 ++ Statement.ret e :: rest)) rt =
        checkStmts env (stmts1 ++ Statement.ret e :: rest) rt := by
      cases stmts1 with
      | nil => rfl
      | cons a l => rfl
    rw [hblock, key stmts1 env env₁ hseq]
    have hfalse : rest.isEmpty = false := by
      cases rest with
      | nil => exact absurd rfl hrest
      | cons r rs => rfl
    have hstmt : checkStmt env₁ (Statement.ret e) false rt
        = .error (.err .deadCodeAfterReturn) := by
      cases e with
      | none => rfl
      | some ex =>
        have hty' : typeOfExpr env₁ ex = .ok t := hty
        simp only [checkStmt]
        rw [hty']
        rfl
    show (do
        let env1 ← checkStmt env₁ (Statement.ret e) rest.isEmpty rt
        checkStmts env1 rest rt) = .error (.err .deadCodeAfterReturn)
    rw [hfalse, hstmt]
    rfl

/-- Witness for C3: a non-void function with an empty body, and a block
with a `return` before its last statement, are both rejected with the
dead-code diagnostic. -/
theorem spec_C3_witness :
    checkBlock STypeEnv.empty (Block.mk []) SType.int
        = .error (.err .deadCodeAfterReturn)
    ∧ checkBlock STypeEnv.empty
        (Block.mk ([] ++ Statement.ret none :: [Statement.ret none])) SType.void
        = .error (.err .deadCodeAfterReturn) :=
  ⟨spec_C3.1 STypeEnv.empty SType.int rfl,
   spec_C3.2 STypeEnv.empty [] STypeEnv.empty none SType.void
     [Statement.ret none] SType.void (by simp) rfl rfl⟩

/-- Claim C4, corrected.  Amended claim: an element-type query on an
unresolved `Named` hits `unreachable!` (a fatal internal error), but a
*size* query on a `Named` falls into `Type::size`'s default match arm and
returns the defined result `0` — it is not a fatal error. -/
theorem spec_C4 : ∀ n : String,
    IRType.elementType (IRType.named n) = none
    ∧ IRType.size (IRType.named n) = 0 :=
  fun _ => ⟨rfl, rfl⟩

/-- Counterexample to C4 as stated: `Type::size` on the unresolved
`Named "A"` yields the defined value `0` rather than a fatal internal
error. -/
theorem spec_C4_counterexample : IRType.size (IRType.named "A") = 0 := rfl

/-- Claim C5 is a code bug.  The `Variable` arm of `generate_instructions`
lowers the initializer but records no binding: the state after lowering
`y: int = 1 + 2` carries the initializer's instruction but an unchanged
(empty) local-variable table; consequently lowering the body
`{ y: int = 1; return y; }` panics on the `Identifier` fallthrough — even
though the checker accepts the very same function
(`test_check_local_variable_define`). -/
theorem spec_C5 :
    genStmt 5 (Statement.varDecl "y" ptInt (.binary (.int 1) (.int 2) .plus)) st0
      = some (GenState.mk [] [] [] [.binaryOperation 0 "add" (.i64 1) (.i64 2)] [] 1)
    ∧ bodyFromAst 9 bugBody [] st0 = none
    ∧ checkProgram [TopAst.functionDecl bugFunction] = .ok () :=
  ⟨rfl, rfl, rfl⟩

/-- Claim C6: name redefinition.  Binding a name that is already bound in
the same scope fails with `NameRedefined` whatever the two bindings'
types — and at the program level, duplicating `x` as variable/variable,
variable/function, function/function or function/variable is rejected with
`NameRedefined`. -/
theorem spec_C6 :
    (∀ env name t₁ t₂ env₁, addVariable env name t₁ = .ok env₁ →
      addVariable env₁ name t₂ = .error (.err (.nameRedefined name)))
    ∧ checkProgram [TopAst.variableDecl "x" ptInt (.int 1),
        TopAst.variableDecl "x" ptInt (.int 2)]
        = .error (.err (.nameRedefined "x"))
    ∧ checkProgram [TopAst.variableDecl "x" ptInt (.int 1),
        TopAst.functionDecl fnX] = .error (.err (.nameRedefined "x"))
    ∧ checkProgram [TopAst.functionDecl fnX, TopAst.functionDecl fnX]
        = .error (.err (.nameRedefined "x"))
    ∧ checkProgram [TopAst.functionDecl fnX, TopAst.variableDecl "x" ptInt (.int 1)]
        = .error (.err (.nameRedefined "x")) := by
  refine ⟨?_, rfl, rfl, rfl, rfl⟩
  intro env name t₁ t₂ env₁ h
  cases env with
  | mk v ty p ic =>
    simp only [addVariable] at h ⊢
    split at h
    · exact absurd h (by simp)
    · simp only [Except.ok.injEq] at h
      subst h
      simp [lookupList]

/-- Witness for C6: rebinding `x` in the same (root) scope, first as an
`int` variable and then as a function, fails with `NameRedefined`. -/
theorem spec_C6_witness :
    addVariable STypeEnv.empty "x" SType.int
        = .ok (STypeEnv.mk [("x", SType.int)] [] none false)
    ∧ addVariable (STypeEnv.mk [("x", SType.int)] [] none false) "x"
        (SType.func [] SType.void) = .error (.err (.nameRedefined "x")) :=
  ⟨rfl, spec_C6.1 STypeEnv.empty "x" SType.int (SType.func [] SType.void) _ rfl⟩

/-- Claim C7: trait checking never silently succeeds.  For every program
containing a trait declaration, `check_program` does not return `Ok`: if
checking reaches the trait in pass 3 it hits `unimplemented!()` (a fatal
failure), and any earlier abort is itself an error. -/
theorem spec_C7 (tops : List TopAst) (h : ∃ n, TopAst.traitDecl n ∈ tops) :
    checkProgram tops ≠ Except.ok () := by
  have key : ∀ (l : List TopAst) (env : STypeEnv),
      (∃ n, TopAst.traitDecl n ∈ l) → pass3 env l ≠ Except.ok () := by
    intro l
    induction l with
    | nil =>
      intro env hmem
      obtain ⟨n, hn⟩ := hmem
      simp at hn
    | cons top rest ih =>
      intro env hmem hok
      obtain ⟨n, hn⟩ := hmem
      rcases List.mem_cons.mp hn with heq | hmem'
      · subst heq
        simp [pass3] at hok
      · have hr : ∃ m, TopAst.traitDecl m ∈ rest := ⟨n, hmem'⟩
        cases top with
        | variableDecl vn vt vi =>
          simp only [pass3] at hok
          obtain ⟨t, ht, hok⟩ := except_bind_ok hok
          obtain ⟨dt, hdt, hok⟩ := except_bind_ok hok
          by_cases hu : sUnify dt t = true
          · rw [if_pos hu] at hok
            exact ih env hr hok
          · rw [if_neg hu] at hok
            exact absurd hok (by simp)
        | functionDecl f =>
          simp only [pass3] at hok
          obtain ⟨u, hu, hok⟩ := except_bind_ok hok
          exact ih env hr hok
        | classDecl cn members =>
          simp only [pass3] at hok
          obtain ⟨cenv, hc, hok⟩ := except_bind_ok hok
          obtain ⟨u, hu, hok⟩ := except_bind_ok hok
          exact ih env hr hok
        | traitDecl m =>
          simp [pass3] at hok
  intro hok
  simp only [checkProgram] at hok
  obtain ⟨env1, h1, hok⟩ := except_bind_ok hok
  obtain ⟨env2, h2, hok⟩ := except_bind_ok hok
  exact key tops env2 h hok

/-- Witness for C7: a program consisting of one trait declaration is not
accepted. -/
theorem spec_C7_witness :
    checkProgram [TopAst.traitDecl "T"] ≠ Except.ok () :=
  spec_C7 [TopAst.traitDecl "T"] ⟨"T", List.mem_singleton_self _⟩

/-- Claim C8: blocks share one scope during checking.  Declaring `x` in an
if-clause and again in the sibling else block fails with `NameRedefined`;
declaring it again *after* the if statement also fails with
`NameRedefined`; and a use of `x` after the if statement resolves (the
block checks successfully and the final environment holds both `x` and the
later `y` in the same scope). -/
theorem spec_C8 :
    checkBlock STypeEnv.empty
      (Block.mk [.ifBlock
        [(.bool true, .mk [.varDecl "x" ptInt (.int 1), .ret none])]
        (.mk [.varDecl "x" ptInt (.int 2), .ret none])]) SType.void
      = .error (.err (.nameRedefined "x"))
    ∧ checkBlock STypeEnv.empty
        (Block.mk [.ifBlock
          [(.bool true, .mk [.varDecl "x" ptInt (.int 1), .ret none])]
          (.mk []), .varDecl "x" ptInt (.int 2)]) SType.void
        = .error (.err (.nameRedefined "x"))
    ∧ checkBlock STypeEnv.empty
        (Block.mk [.ifBlock
          [(.bool true, .mk [.varDecl "x" ptInt (.int 1), .ret none])]
          (.mk []), .varDecl "y" ptInt (.identifier "x")]) SType.void
        = .ok (STypeEnv.mk [("y", SType.int), ("x", SType.int)] [] none false) :=
  ⟨rfl, rfl, rfl⟩

/-- Claim C9: numbering never touches hoisted string globals.  For every
body lowered from a well-formed module state, the numbering pass writes
only cells owned by the body's own instruction stream (frame property), and
every `ID`-named global of the resulting module — in particular every
hoisted string constant — still reads the placeholder `0` afterwards. -/
theorem spec_C9 (fuel : Nat) (b : ABody) (params : List (String × ParsedType))
    (s : GenState) (lb : LoweredBody) (s' : GenState) (hM : GoodModule s)
    (h : bodyFromAst fuel b params s = some (lb, s')) :
    (∀ x, x ∉ ownersList lb.instrs → cellValue lb.numbers x = 0)
    ∧ (∀ g, g ∈ globalIds s'.globals → cellValue lb.numbers g = 0) := by
  have hg := bodyFromAst_good hM h
  constructor
  · intro x hx
    rw [hg.2.1] at hx
    rw [hg.2.2, runNumber_frame s'.instrs 1 [] x hx]
    rfl
  · intro g hgl
    have hnotin : g ∉ ownersList s'.instrs := hg.1.2.2.1 g hgl
    rw [hg.2.2, runNumber_frame s'.instrs 1 [] g hnotin]
    rfl

/-- Witness for C9: lowering a body containing the string literal `"hi"`
hoists a global named by cell 0, and that cell still reads `0` after
numbering. -/
theorem spec_C9_witness :
    GoodModule stStr ∧ cellValue demoOut.1.numbers 0 = 0 :=
  ⟨fun g hg => absurd hg (by simp [stStr, globalIds]),
   (spec_C9 20 demoBody [] stStr demoOut.1 demoOut.2
       (fun g hg => absurd hg (by simp [stStr, globalIds])) rfl).2
     0 (by decide)⟩

/-- Claim C10: the member-access field scan is unguarded.  When no field
matches, the linear scan returns exactly the number of fields, and the
subsequent `fields[i]` access is out of bounds (a fatal panic, `none` in
the embedding) — concretely, lowering `p.nope` against a struct with the
single field `a` panics; when a matching field exists the index is in
bounds, which is the checker-guaranteed precondition making the panic
branch unreachable. -/
theorem spec_C10 (fields : List (String × IRType)) (access : String)
    (hmiss : ∀ p ∈ fields, p.1 ≠ access) :
    fieldIndex fields access = fields.length
    ∧ fields.get? (fieldIndex fields access) = none
    ∧ (∀ (fields2 : List (String × IRType)) (access2 : String),
        (∃ p ∈ fields2, p.1 = access2) →
        fieldIndex fields2 access2 < fields2.length)
    ∧ exprFromAst 5 (.memberAccess (.identifier "p") "nope")
        (GenState.mk [] [] [] [] [("p", .struct "P" [("a", .int 64)])] 0)
      = none := by
  have hidx : ∀ (fs : List (String × IRType)), (∀ p ∈ fs, p.1 ≠ access) →
      fieldIndex fs access = fs.length := by
    intro fs
    induction fs with
    | nil => intro _; rfl
    | cons p rest ih =>
      intro hm
      obtain ⟨pn, pt⟩ := p
      simp only [fieldIndex]
      rw [if_neg (hm (pn, pt) (List.mem_cons_self _ _))]
      rw [ih (fun q hq => hm q (List.mem_cons_of_mem _ hq))]
      simp only [List.length_cons]
      omega
  have hhit : ∀ (fs : List (String × IRType)) (ac : String),
      (∃ p ∈ fs, p.1 = ac) → fieldIndex fs ac < fs.length := by
    intro fs
    induction fs with
    | nil =>
      intro ac hex
      obtain ⟨p, hp, _⟩ := hex
      simp at hp
    | cons q rest ih =>
      intro ac hex
      obtain ⟨qn, qt⟩ := q
      by_cases hq : qn = ac
      · simp [fieldIndex, hq]
      · simp only [fieldIndex]
        rw [if_neg hq]
        obtain ⟨p, hp, hpe⟩ := hex
        rcases List.mem_cons.mp hp with heq | hmem
        · subst heq
          exact absurd hpe hq
        · have := ih ac ⟨p, hmem, hpe⟩
          simp only [List.length_cons]
          omega
  refine ⟨hidx fields hmiss, ?_, hhit, rfl⟩
  rw [hidx fields hmiss]
  exact List.get?_eq_none.mpr (le_refl _)

/-- Witness for C10: a one-field struct scanned for a missing name yields
index 1 = length, an out-of-bounds access. -/
theorem spec_C10_witness :
    fieldIndex [("a", IRType.int 64)] "nope" = 1
    ∧ ([("a", IRType.int 64)] : List (String × IRType)).get?
        (fieldIndex [("a", IRType.int 64)] "nope") = none := by
  have h := spec_C10 [("a", IRType.int 64)] "nope" (by decide)
  exact ⟨h.1, h.2.1⟩

end Elz
